/-
Verification of the analog-stick-to-wheel event transform.

The program (src/main.rs) turns two-axis analog-stick samples into a
steering-wheel angle: it classifies each frame as Gripped or Freewheel
from the deflection magnitude, integrates the cyclic angular delta while
gripped, eases toward center otherwise, clamps to the steering stops and
quantizes onto the device's integer axis range.

This development shallowly embeds the program in Lean.  The program's
`f64` arithmetic is modelled by exact real arithmetic (`ℝ`): each Lean
definition mirrors the corresponding Rust item, with `std::f64` operations
replaced by their ideal real counterparts (`atan2` by `Complex.arg`,
`sqrt` by `Real.sqrt`, `trunc` by floor/ceil toward zero).  Rounding
error, NaN and signed zero are outside the model.  I/O (stdin/stdout,
timestamps, threads) is abstracted: elapsed time becomes an explicit real
parameter and the main loop body becomes a pure step function on the
session state.
-/
import Mathlib

open Real

namespace A2W

/-- Grip state of a frame.  Mirrors `enum State { Freewheel, Gripped }`
in the source; note the source has no `Sliding` variant. -/
inductive State where
  | Freewheel
  | Gripped
deriving DecidableEq, Repr

/-- A raw sample: `struct Frame { x: i32, y: i32, state: State }`. -/
structure Frame where
  x : ℤ
  y : ℤ
  state : State
deriving DecidableEq, Repr

/-- `std::f64::consts::TAU`. -/
noncomputable def TAU : ℝ := 2 * π

/-- `const STEERING_STOP: f64 = std::f64::consts::TAU * 3.0;` -/
noncomputable def STEERING_STOP : ℝ := TAU * 3

/-- `const MAX_MAGNITUDE: f64 = 32767.0;` -/
def MAX_MAGNITUDE : ℝ := 32767

/-- `const GRIP_THRESHOLD: f64 = 0.92;` -/
def GRIP_THRESHOLD : ℝ := 0.92

/-- `f64::atan2`: `y.atan2(x)` is the argument of the complex number
`x + y i`, with range `(-π, π]` and `atan2 0 0 = 0`. -/
noncomputable def atan2 (y x : ℝ) : ℝ := Complex.arg ⟨x, y⟩

/-- `Frame::analyze`: polar angle, normalized magnitude and grip
classification of the sample. -/
noncomputable def Frame.analyze (f : Frame) : ℝ × ℝ × State :=
  let x : ℝ := (f.x : ℝ)
  let y : ℝ := (f.y : ℝ)
  let mag := Real.sqrt (x ^ 2 + y ^ 2) / MAX_MAGNITUDE
  (atan2 y x, mag, if mag > GRIP_THRESHOLD then State.Gripped else State.Freewheel)

/-- `Frame::resolve`: runs `analyze`, stores the classified state back
into the frame, and returns angle and magnitude. -/
noncomputable def Frame.resolve (f : Frame) : (ℝ × ℝ) × Frame :=
  let (a, m, s) := f.analyze
  ((a, m), { f with state := s })

/-- `impl Default for Frame`. -/
def Frame.default : Frame := { x := 0, y := 0, state := State.Freewheel }

/-- `struct ProcessedFrame { inner: Frame, analog_angle: Option<f64>,
analog_magnitude: f64 }`. -/
structure ProcessedFrame where
  inner : Frame
  analog_angle : Option ℝ
  analog_magnitude : ℝ

/-- `#[derive(Default)]` for `ProcessedFrame`: default inner frame,
`analog_angle = None`, zero magnitude. -/
def ProcessedFrame.default : ProcessedFrame :=
  { inner := Frame.default, analog_angle := none, analog_magnitude := 0 }

/-- `impl From<Frame> for ProcessedFrame`: resolves the frame and records
its angle (always `Some`) and magnitude. -/
noncomputable def ProcessedFrame.fromFrame (value : Frame) : ProcessedFrame :=
  let ((a, m), value) := value.resolve
  { inner := value, analog_angle := some a, analog_magnitude := m }

/-- `f64::clamp(self, min, max)` (for `min ≤ max`, NaN aside). -/
noncomputable def clamp (x lo hi : ℝ) : ℝ :=
  if x < lo then lo else if x > hi then hi else x

/-- `fn lerp(from: f64, to: f64, t: f64) -> f64` — linear interpolation
with `t` clamped to `[0, 1]` (`a` is `from`, `b` is `to`). -/
noncomputable def lerp (a b t : ℝ) : ℝ :=
  let t := clamp t 0 1
  (1 - t) * a + t * b

/-- First loop of `cyclic_signed_distance`: add `2π` until `r > -π`. -/
noncomputable def wrapUp (r : ℝ) : ℝ :=
  if h : -π < r then r else wrapUp (r + 2 * π)
termination_by (⌊(π - r) / (2 * π)⌋).toNat
decreasing_by
  have h2 : (π - (r + 2 * π)) / (2 * π) = (π - r) / (2 * π) - 1 := by
    field_simp
    ring
  rw [h2, Int.floor_sub_one]
  have h1 : 1 ≤ ⌊(π - r) / (2 * π)⌋ := by
    apply Int.le_floor.mpr
    push_cast
    rw [le_div_iff₀ (by positivity)]
    push_neg at h
    nlinarith [Real.pi_pos]
  omega

/-- Second loop of `cyclic_signed_distance`: subtract `2π` until `r < π`. -/
noncomputable def wrapDown (r : ℝ) : ℝ :=
  if h : r < π then r else wrapDown (r - 2 * π)
termination_by (⌊(r + π) / (2 * π)⌋).toNat
decreasing_by
  have h2 : (r - 2 * π + π) / (2 * π) = (r + π) / (2 * π) - 1 := by
    field_simp
    ring
  rw [h2, Int.floor_sub_one]
  have h1 : 1 ≤ ⌊(r + π) / (2 * π)⌋ := by
    apply Int.le_floor.mpr
    push_cast
    rw [le_div_iff₀ (by positivity)]
    push_neg at h
    nlinarith [Real.pi_pos]
  omega

/-- `fn cyclic_signed_distance(a: f64, b: f64) -> f64`: `r = a - b`,
then the two normalization loops in source order. -/
noncomputable def cyclic_signed_distance (a b : ℝ) : ℝ :=
  wrapDown (wrapUp (a - b))

/-- `fn wheel_behaviour(cur_wheel_angle: f64, cur: &ProcessedFrame,
prev: &ProcessedFrame, d_t: f64) -> f64`.  The `easing` closure, the
match on `(prev.state, cur.state)` (states read through the `Deref` to
the inner `Frame`), the `map_or(0.0, ...)` over the previous angle, the
`unwrap_or_else(easing)` fallback and the final clamp to the steering
stops, in source order. -/
noncomputable def wheel_behaviour (cur_wheel_angle : ℝ) (cur prev : ProcessedFrame)
    (d_t : ℝ) : ℝ :=
  let easing := lerp cur_wheel_angle 0 (clamp ((TAU / 4) * d_t) 0 0.2)
  clamp
    ((cur.analog_angle.map (fun aangle =>
      match prev.inner.state, cur.inner.state with
      | State.Gripped, State.Gripped =>
          (prev.analog_angle.elim 0 (fun p_aangle =>
            cyclic_signed_distance aangle p_aangle)) + cur_wheel_angle
      | _, _ => easing)).getD easing)
    (-STEERING_STOP) STEERING_STOP

/-- `f64::trunc` composed with the exact integer read-off: rounds toward
zero (floor for nonnegative input, ceiling for negative input). -/
noncomputable def trunc (x : ℝ) : ℤ :=
  if 0 ≤ x then ⌊x⌋ else ⌈x⌉

/-- `as i32` on an integer-valued float: saturates to the `i32` range
(Rust float-to-int `as` casts saturate). -/
def i32_saturate (n : ℤ) : ℤ :=
  max (-(2 ^ 31)) (min (2 ^ 31 - 1) n)

/-- `const HALF_U16: i32 = u16::MAX as i32 / 2;` — integer division,
so `65535 / 2 = 32767`. -/
def HALF_U16 : ℤ := 65535 / 2

/-- `fn quantize_wheel_angle(angle: f64) -> i32`:
`HALF_U16 + (HALF_U16 as f64 / STEERING_STOP * angle).trunc() as i32`. -/
noncomputable def quantize_wheel_angle (angle : ℝ) : ℤ :=
  HALF_U16 + i32_saturate (trunc ((HALF_U16 : ℝ) / STEERING_STOP * angle))

/-- Modelled from the spec's words for the quantizer contract (claim C6):
`midpoint + floor(half_range / STEERING_STOP * wheel_angle)` with the
midpoint and half-range of the `[0, 65535]` output range (as the code
takes them, `⌊65535/2⌋ = 32767`).  This is the comparison definition for
the refinement claim; the code authority is `quantize_wheel_angle`. -/
noncomputable def quantize_wheel_angle_spec (angle : ℝ) : ℤ :=
  HALF_U16 + ⌊(HALF_U16 : ℝ) / STEERING_STOP * angle⌋

/-- Session state `struct Data`, without the `Instant` field: wall-clock
elapsed time is abstracted into an explicit parameter of `tick` and
`mainLoopStep` (the code computes it as `last_wheel_report.elapsed()`). -/
structure Data where
  prev : ProcessedFrame
  cur : Frame
  wheel_angle : ℝ

/-- `SynchronizeKind` of the input crate (the code only tests for
`Report`). -/
inductive SynchronizeKind where
  | Report
  | Config
  | MtReport
  | Dropped
deriving DecidableEq, Repr

/-- The `tick` closure of `main`, on a synchronize event of the given
kind: on a `Report`, process the current raw frame, run the integrator
with the elapsed time, store the new wheel angle, and return the
processed frame (the quantized axis value is written to stdout, which the
model abstracts); otherwise pass the event through and return `none`. -/
noncomputable def tick (state : Data) (elapsed : ℝ) (kind : SynchronizeKind) :
    Data × Option ProcessedFrame :=
  if kind = SynchronizeKind.Report then
    let processed := ProcessedFrame.fromFrame state.cur
    let wa := wheel_behaviour state.wheel_angle processed state.prev elapsed
    ({ state with wheel_angle := wa }, some processed)
  else
    (state, none)

/-- Absolute axes: the code updates state on `X` and `Y` and passes any
other absolute axis through (other axes collapsed to one constructor,
`code` being the raw axis code). -/
inductive AbsoluteAxis where
  | X
  | Y
  | Axis (code : ℕ)
deriving DecidableEq, Repr

/-- A decoded input event as the main loop matches it: an absolute-axis
update, a synchronize event, or anything else (passed through; payloads
the loop never inspects are dropped from the model). -/
inductive Event where
  | Absolute (axis : AbsoluteAxis) (value : ℤ)
  | Synchronize (kind : SynchronizeKind)
  | Other
deriving DecidableEq, Repr

/-- `input_linux::RangeError` payload (only printed by the loop; the
message content is abstracted). -/
structure RangeError where
  code : ℤ
deriving DecidableEq, Repr

/-- `enum LoopError { EventCreation(RangeError), Other(String) }` — the
`Other` message string is abstracted away since the loop only prints it. -/
inductive LoopError where
  | EventCreation (e : RangeError)
  | OtherErr
deriving DecidableEq, Repr

/-- Observable effect of one main-loop iteration: whether the loop exits,
how many garbage bytes it discards from stdin to resynchronize, and
whether it prints an error diagnostic. -/
structure LoopEffect where
  exits : Bool
  dropBytes : ℕ
  errDiag : Bool
deriving DecidableEq, Repr

/-- One iteration of the `loop` in `main`, as a pure step function:
`input` is the result of `read_input_event` + `Event::new` on stdin, and
`elapsed` the time since the last wheel report.  On `Ok`: X/Y absolute
events update the current raw sample, other absolute events and
non-absolute non-synchronize events pass through, and synchronize events
run `tick` (storing the processed frame as `prev` when `tick` returns
one).  On `Err`: print a diagnostic, and for a read error additionally
discard a 256-byte garbage window; the state is untouched and the loop
continues in every case. -/
noncomputable def mainLoopStep (state : Data) (elapsed : ℝ)
    (input : Except LoopError Event) : Data × LoopEffect :=
  match input with
  | Except.ok ev =>
    match ev with
    | Event.Absolute axis value =>
      match axis with
      | AbsoluteAxis.X =>
          ({ state with cur := { state.cur with x := value } },
           { exits := false, dropBytes := 0, errDiag := false })
      | AbsoluteAxis.Y =>
          ({ state with cur := { state.cur with y := value } },
           { exits := false, dropBytes := 0, errDiag := false })
      | AbsoluteAxis.Axis _ =>
          (state, { exits := false, dropBytes := 0, errDiag := false })
    | Event.Synchronize kind =>
      let (st, res) := tick state elapsed kind
      match res with
      | some processed =>
          ({ st with prev := processed },
           { exits := false, dropBytes := 0, errDiag := false })
      | none =>
          (st, { exits := false, dropBytes := 0, errDiag := false })
    | Event.Other =>
        (state, { exits := false, dropBytes := 0, errDiag := false })
  | Except.error e =>
    match e with
    | LoopError.OtherErr =>
        (state, { exits := false, dropBytes := 256, errDiag := true })
    | LoopError.EventCreation _ =>
        (state, { exits := false, dropBytes := 0, errDiag := true })

/-- Wheel-angle trajectory of a sequence of integrator steps: each list
element supplies the `(cur, prev, d_t)` arguments of one
`wheel_behaviour` call, the wheel angle threading through; the result
lists the wheel angle after every step. -/
noncomputable def runWheel (w : ℝ) :
    List (ProcessedFrame × ProcessedFrame × ℝ) → List ℝ
  | [] => []
  | s :: rest =>
    let w2 := wheel_behaviour w s.1 s.2.1 s.2.2
    w2 :: runWheel w2 rest

/-! ### Helper lemmas about the normalization loops -/

theorem wrapUp_of_gt {r : ℝ} (h : -π < r) : wrapUp r = r := by
  rw [wrapUp]
  exact dif_pos h

theorem wrapUp_of_le {r : ℝ} (h : ¬(-π < r)) : wrapUp r = wrapUp (r + 2 * π) := by
  rw [wrapUp]
  exact dif_neg h

theorem wrapDown_of_lt {r : ℝ} (h : r < π) : wrapDown r = r := by
  rw [wrapDown]
  exact dif_pos h

theorem wrapDown_of_ge {r : ℝ} (h : ¬(r < π)) : wrapDown r = wrapDown (r - 2 * π) := by
  rw [wrapDown]
  exact dif_neg h

/-- The first loop adds a whole number of turns and exits with `-π < r`. -/
theorem wrapUp_spec (r : ℝ) : (∃ k : ℕ, wrapUp r = r + 2 * π * k) ∧ -π < wrapUp r := by
  induction r using wrapUp.induct with
  | case1 r h =>
    rw [wrapUp_of_gt h]
    exact ⟨⟨0, by push_cast; ring⟩, h⟩
  | case2 r h ih =>
    rw [wrapUp_of_le h]
    obtain ⟨⟨k, hk⟩, hgt⟩ := ih
    refine ⟨⟨k + 1, ?_⟩, hgt⟩
    push_cast
    linarith

/-- The second loop subtracts a whole number of turns and exits with `r < π`. -/
theorem wrapDown_spec (r : ℝ) :
    (∃ k : ℕ, wrapDown r = r - 2 * π * k) ∧ wrapDown r < π := by
  induction r using wrapDown.induct with
  | case1 r h =>
    rw [wrapDown_of_lt h]
    exact ⟨⟨0, by push_cast; ring⟩, h⟩
  | case2 r h ih =>
    rw [wrapDown_of_ge h]
    obtain ⟨⟨k, hk⟩, hlt⟩ := ih
    refine ⟨⟨k + 1, ?_⟩, hlt⟩
    push_cast
    linarith

/-- The second loop never drops below `-π` when it starts at or above it. -/
theorem wrapDown_ge (r : ℝ) : -π ≤ r → -π ≤ wrapDown r := by
  induction r using wrapDown.induct with
  | case1 r h =>
    intro hr
    rwa [wrapDown_of_lt h]
  | case2 r h ih =>
    intro _
    rw [wrapDown_of_ge h]
    push_neg at h
    apply ih
    linarith [Real.pi_pos]

/-- `cyclic_signed_distance` is the input difference up to whole turns
and always lands in `[-π, π)`. -/
theorem cyclic_signed_distance_spec (a b : ℝ) :
    (∃ k : ℤ, cyclic_signed_distance a b = a - b + 2 * π * k) ∧
      cyclic_signed_distance a b ∈ Set.Ico (-π) π := by
  obtain ⟨⟨k₁, hk₁⟩, hgt⟩ := wrapUp_spec (a - b)
  obtain ⟨⟨k₂, hk₂⟩, hlt⟩ := wrapDown_spec (wrapUp (a - b))
  have hge : -π ≤ wrapDown (wrapUp (a - b)) := wrapDown_ge _ (le_of_lt hgt)
  refine ⟨⟨(k₁ : ℤ) - (k₂ : ℤ), ?_⟩, ?_⟩
  · rw [cyclic_signed_distance, hk₂, hk₁]
    push_cast
    ring
  · exact ⟨hge, by rwa [cyclic_signed_distance]⟩

/-- Two values of `[-π, π)` that differ by a whole number of turns are
equal. -/
theorem Ico_turn_unique {x y : ℝ} (hx : x ∈ Set.Ico (-π) π)
    (hy : y ∈ Set.Ico (-π) π) (h : ∃ k : ℤ, x - y = 2 * π * k) : x = y := by
  obtain ⟨k, hk⟩ := h
  obtain ⟨hx1, hx2⟩ := hx
  obtain ⟨hy1, hy2⟩ := hy
  have hπ := Real.pi_pos
  have hk1 : (-1 : ℝ) < (k : ℝ) := by nlinarith
  have hk2 : ((k : ℝ)) < 1 := by nlinarith
  have h1 : (-1 : ℤ) < k := by exact_mod_cast hk1
  have h2 : k < 1 := by exact_mod_cast hk2
  have hk0 : k = 0 := by omega
  rw [hk0] at hk
  push_cast at hk
  linarith

/-! ### Concrete evaluations of `cyclic_signed_distance` -/

theorem csd_pi_zero : cyclic_signed_distance π 0 = -π := by
  have hπ := Real.pi_pos
  rw [cyclic_signed_distance, sub_zero, wrapUp_of_gt (by linarith),
    wrapDown_of_ge (by linarith), show π - 2 * π = -π by ring,
    wrapDown_of_lt (by linarith)]

theorem csd_zero_pi : cyclic_signed_distance 0 π = -π := by
  have hπ := Real.pi_pos
  rw [cyclic_signed_distance, zero_sub, wrapUp_of_le (by linarith),
    show -π + 2 * π = π by ring, wrapUp_of_gt (by linarith),
    wrapDown_of_ge (by linarith), show π - 2 * π = -π by ring,
    wrapDown_of_lt (by linarith)]

/-! ### Helper lemmas about `clamp` and `lerp` -/

theorem clamp_eq_self {x lo hi : ℝ} (h1 : lo ≤ x) (h2 : x ≤ hi) :
    clamp x lo hi = x := by
  rw [clamp, if_neg (by linarith), if_neg (by linarith)]

theorem clamp_mem {x lo hi : ℝ} (h : lo ≤ hi) :
    lo ≤ clamp x lo hi ∧ clamp x lo hi ≤ hi := by
  rw [clamp]
  split_ifs <;> constructor <;> linarith

theorem abs_clamp_le {x S : ℝ} (h : 0 ≤ S) : |clamp x (-S) S| ≤ S := by
  have := @clamp_mem x (-S) S (by linarith)
  rw [abs_le]
  exact this

theorem lerp_to_zero {a t : ℝ} (h1 : 0 ≤ t) (h2 : t ≤ 1) :
    lerp a 0 t = (1 - t) * a := by
  rw [lerp, clamp_eq_self h1 h2]
  ring

theorem STEERING_STOP_pos : 0 < STEERING_STOP := by
  rw [STEERING_STOP, TAU]
  positivity

/-! ### Branch reductions of `wheel_behaviour` -/

/-- With a defined current angle and both frames `Gripped`, the
integrator adds the cyclic delta to the wheel angle and clamps. -/
theorem wheel_behaviour_gripped_eq (w : ℝ) (cur prev : ProcessedFrame) (dt a pa : ℝ)
    (hc : cur.analog_angle = some a) (hp : prev.analog_angle = some pa)
    (hps : prev.inner.state = State.Gripped) (hcs : cur.inner.state = State.Gripped) :
    wheel_behaviour w cur prev dt =
      clamp (cyclic_signed_distance a pa + w) (-STEERING_STOP) STEERING_STOP := by
  simp only [wheel_behaviour, hc, hp, hps, hcs, Option.map_some', Option.getD_some,
    Option.elim_some]

/-- With an undefined current angle, or a step that is not
Gripped→Gripped, the integrator runs the `easing` closure and clamps. -/
theorem wheel_behaviour_easing_eq (w : ℝ) (cur prev : ProcessedFrame) (dt : ℝ)
    (h : cur.analog_angle = none ∨
      ¬(prev.inner.state = State.Gripped ∧ cur.inner.state = State.Gripped)) :
    wheel_behaviour w cur prev dt =
      clamp (lerp w 0 (clamp ((TAU / 4) * dt) 0 0.2)) (-STEERING_STOP) STEERING_STOP := by
  rcases h with h | h
  · simp only [wheel_behaviour, h, Option.map_none', Option.getD_none]
  · rcases hc : cur.analog_angle with _ | a
    · simp only [wheel_behaviour, hc, Option.map_none', Option.getD_none]
    · rcases hps : prev.inner.state <;> rcases hcs : cur.inner.state
      · simp only [wheel_behaviour, hc, hps, hcs, Option.map_some', Option.getD_some]
      · simp only [wheel_behaviour, hc, hps, hcs, Option.map_some', Option.getD_some]
      · simp only [wheel_behaviour, hc, hps, hcs, Option.map_some', Option.getD_some]
      · exact absurd ⟨hps, hcs⟩ h

/-- The easing value clamped to the stops shrinks toward zero without a
sign flip. -/
theorem ease_shrink {w t S : ℝ} (h0 : 0 ≤ t) (h1 : t ≤ 1) (hS : 0 < S) :
    (0 ≤ w → 0 ≤ clamp ((1 - t) * w) (-S) S ∧ clamp ((1 - t) * w) (-S) S ≤ w) ∧
    (w ≤ 0 → w ≤ clamp ((1 - t) * w) (-S) S ∧ clamp ((1 - t) * w) (-S) S ≤ 0) ∧
    |clamp ((1 - t) * w) (-S) S| ≤ |w| := by
  rw [clamp]
  split_ifs with hA hB
  · have hw : w ≤ -S := by nlinarith
    refine ⟨fun h => absurd hA (by nlinarith), fun _ => ⟨by linarith, by linarith⟩, ?_⟩
    rw [abs_neg, abs_of_pos hS]
    exact le_abs.mpr (Or.inr (by linarith))
  · have hw : S ≤ w := by nlinarith
    refine ⟨fun _ => ⟨by linarith, by linarith⟩, fun h => absurd hB (by nlinarith), ?_⟩
    rw [abs_of_pos hS]
    exact le_abs.mpr (Or.inl (by linarith))
  · push_neg at hA hB
    refine ⟨fun h => ⟨by nlinarith, by nlinarith⟩, fun h => ⟨by nlinarith, by nlinarith⟩, ?_⟩
    rw [abs_mul, abs_of_nonneg (by linarith : (0:ℝ) ≤ 1 - t)]
    nlinarith [abs_nonneg w]

/-! ### Evaluations used by the gripped-step claim -/

theorem csd_self (a : ℝ) : cyclic_signed_distance a a = 0 := by
  have hπ := Real.pi_pos
  rw [cyclic_signed_distance, sub_self, wrapUp_of_gt (by linarith),
    wrapDown_of_lt (by linarith)]

/-! ### Helper lemmas about `trunc` and the `i32` saturation -/

theorem trunc_mono {x y : ℝ} (h : x ≤ y) : trunc x ≤ trunc y := by
  rcases le_or_lt 0 x with hx | hx <;> rcases le_or_lt 0 y with hy | hy
  · rw [trunc, if_pos hx, trunc, if_pos hy]
    exact Int.floor_le_floor h
  · linarith
  · rw [trunc, if_neg (not_le.mpr hx), trunc, if_pos hy]
    have h1 : ⌈x⌉ ≤ 0 := Int.ceil_le.mpr (by push_cast; linarith)
    have h2 : 0 ≤ ⌊y⌋ := Int.floor_nonneg.mpr hy
    omega
  · rw [trunc, if_neg (not_le.mpr hx), trunc, if_neg (not_le.mpr hy)]
    exact Int.ceil_le_ceil h

theorem trunc_abs_le {v : ℝ} {c : ℤ} (hc : 0 ≤ c) (h : |v| ≤ (c : ℝ)) :
    -c ≤ trunc v ∧ trunc v ≤ c := by
  obtain ⟨hlo, hhi⟩ := abs_le.mp h
  rw [trunc]
  split_ifs with h0
  · constructor
    · have : (0 : ℤ) ≤ ⌊v⌋ := Int.floor_nonneg.mpr h0
      omega
    · calc ⌊v⌋ ≤ ⌊(c : ℝ)⌋ := Int.floor_le_floor hhi
        _ = c := Int.floor_intCast c
  · constructor
    · calc -c = ⌈((-c : ℤ) : ℝ)⌉ := by rw [Int.ceil_intCast]
        _ ≤ ⌈v⌉ := Int.ceil_le_ceil (by push_cast; linarith)
    · have : ⌈v⌉ ≤ 0 := Int.ceil_le.mpr (by push_cast; linarith)
      omega

theorem i32_saturate_eq {n : ℤ} (h1 : -(2 ^ 31) ≤ n) (h2 : n ≤ 2 ^ 31 - 1) :
    i32_saturate n = n := by
  rw [i32_saturate, min_eq_right h2, max_eq_right h1]

theorem i32_saturate_mono {m n : ℤ} (h : m ≤ n) : i32_saturate m ≤ i32_saturate n := by
  rw [i32_saturate, i32_saturate]
  exact max_le_max le_rfl (min_le_min le_rfl h)

theorem HALF_U16_eq : HALF_U16 = 32767 := by decide

/-! ### Trajectory bound helpers -/

theorem abs_wheel_behaviour_le (w : ℝ) (cur prev : ProcessedFrame) (dt : ℝ) :
    |wheel_behaviour w cur prev dt| ≤ STEERING_STOP := by
  simp only [wheel_behaviour]
  exact abs_clamp_le (le_of_lt STEERING_STOP_pos)

theorem runWheel_mem_abs_le (w : ℝ)
    (steps : List (ProcessedFrame × ProcessedFrame × ℝ)) :
    ∀ x ∈ runWheel w steps, |x| ≤ STEERING_STOP := by
  induction steps generalizing w with
  | nil =>
    intro x hx
    simp [runWheel] at hx
  | cons s rest ih =>
    intro x hx
    simp only [runWheel, List.mem_cons] at hx
    rcases hx with rfl | hx
    · exact abs_wheel_behaviour_le _ _ _ _
    · exact ih _ _ hx

/-! ## Claim C1 -/

theorem csd_179_deg :
    cyclic_signed_distance ((179 / 180) * π) (-((179 / 180) * π)) = -(π / 90) := by
  have hπ := Real.pi_pos
  have h1 : (179 / 180) * π - -((179 / 180) * π) = (179 / 90) * π := by ring
  rw [cyclic_signed_distance, h1, wrapUp_of_gt (by nlinarith),
    wrapDown_of_ge (by push_neg; nlinarith),
    show (179 / 90) * π - 2 * π = -(π / 90) by ring,
    wrapDown_of_lt (by nlinarith)]

/-- C1 (counterexample): the claim as stated is false on the code.  For
`a = π`, `b = 0` (both in the range of `atan2`) the result is `-π`,
which is not in the open interval `(-π, π)`; and the wraparound example
`cyclic_signed_distance(radians 179°, radians (-179°))` evaluates to
`radians (-2°)`, not `radians 2°` as the claim says. -/
theorem cyclic_signed_distance_claim_counterexample :
    cyclic_signed_distance π 0 = -π ∧ -π ∉ Set.Ioo (-π) π ∧
    cyclic_signed_distance ((179 / 180) * π) (-((179 / 180) * π)) = -(π / 90) ∧
    -(π / 90) ≠ π / 90 := by
  have hπ := Real.pi_pos
  refine ⟨csd_pi_zero, ?_, csd_179_deg, ?_⟩
  · intro hmem
    exact absurd hmem.1 (lt_irrefl _)
  · intro h
    nlinarith

/-- C1 (amended): for all real angles `a, b` (in particular all values of
`atan2`), `cyclic_signed_distance a b` terminates — it is a total
function — and returns `r` with `r ≡ a - b (mod 2π)` and
`r ∈ [-π, π)` (half-open: `-π` is attained, `π` is not); the wraparound
example `cyclic_signed_distance(radians 179°, radians (-179°))` equals
`radians (-2°)`. -/
theorem cyclic_signed_distance_normalizes :
    (∀ a b : ℝ, (∃ k : ℤ, cyclic_signed_distance a b = a - b + 2 * π * k) ∧
      cyclic_signed_distance a b ∈ Set.Ico (-π) π) ∧
    cyclic_signed_distance ((179 / 180) * π) (-((179 / 180) * π)) = -(π / 90) :=
  ⟨cyclic_signed_distance_spec, csd_179_deg⟩

/-! ## Claim C3 -/

/-- C3 (counterexample): antisymmetry fails at the wrap boundary: both
`cyclic_signed_distance π 0` and `cyclic_signed_distance 0 π` evaluate
to `-π`, so `distance(a,b) = -distance(b,a)` fails at `a = π, b = 0`. -/
theorem cyclic_signed_distance_antisymm_counterexample :
    cyclic_signed_distance π 0 = -π ∧ cyclic_signed_distance 0 π = -π ∧
    cyclic_signed_distance π 0 ≠ -cyclic_signed_distance 0 π := by
  have hπ := Real.pi_pos
  refine ⟨csd_pi_zero, csd_zero_pi, ?_⟩
  rw [csd_pi_zero, csd_zero_pi]
  intro h
  nlinarith

/-- C3 (amended): every value of `cyclic_signed_distance` lies in the
consistently chosen half-open interval `[-π, π)`, and the function is
antisymmetric except on the boundary: whenever the result is not `-π`
(i.e. the inputs do not differ by an odd multiple of `π`),
`distance(a,b) = -distance(b,a)`. -/
theorem cyclic_signed_distance_antisymm :
    (∀ a b : ℝ, cyclic_signed_distance a b ∈ Set.Ico (-π) π) ∧
    (∀ a b : ℝ, cyclic_signed_distance a b ≠ -π →
      cyclic_signed_distance a b = -cyclic_signed_distance b a) := by
  refine ⟨fun a b => (cyclic_signed_distance_spec a b).2, fun a b hne => ?_⟩
  obtain ⟨⟨k₁, hk₁⟩, hm₁⟩ := cyclic_signed_distance_spec a b
  obtain ⟨⟨k₂, hk₂⟩, hm₂⟩ := cyclic_signed_distance_spec b a
  have hlt : -π < cyclic_signed_distance a b := lt_of_le_of_ne hm₁.1 (Ne.symm hne)
  have hneg : -cyclic_signed_distance a b ∈ Set.Ico (-π) π :=
    ⟨by linarith [hm₁.2], by linarith⟩
  have := Ico_turn_unique hm₂ hneg ⟨k₂ + k₁, by rw [hk₁, hk₂]; push_cast; ring⟩
  linarith

/-- C3 (witness): a concrete off-boundary instance of the amended
antisymmetry. -/
theorem cyclic_signed_distance_antisymm_witness :
    cyclic_signed_distance (π / 2) 0 = -cyclic_signed_distance 0 (π / 2) := by
  apply cyclic_signed_distance_antisymm.2
  have hπ := Real.pi_pos
  have heval : cyclic_signed_distance (π / 2) 0 = π / 2 := by
    rw [cyclic_signed_distance, sub_zero, wrapUp_of_gt (by nlinarith),
      wrapDown_of_lt (by nlinarith)]
  rw [heval]
  intro h
  nlinarith

/-! ## Claim C2 -/

/-- C2 (confirmed): `wheel_behaviour` always returns a value of absolute
value at most `STEERING_STOP`, for any previous wheel angle, any pair of
frames and any elapsed time; consequently along any sequence of
integrator steps started from wheel angle `0`, every intermediate wheel
angle satisfies `|wheel_angle| ≤ STEERING_STOP`. -/
theorem wheel_behaviour_bounded :
    (∀ (w : ℝ) (cur prev : ProcessedFrame) (dt : ℝ),
      |wheel_behaviour w cur prev dt| ≤ STEERING_STOP) ∧
    (∀ (steps : List (ProcessedFrame × ProcessedFrame × ℝ)) (x : ℝ),
      x ∈ runWheel 0 steps → |x| ≤ STEERING_STOP) :=
  ⟨abs_wheel_behaviour_le, fun steps x hx => runWheel_mem_abs_le 0 steps x hx⟩

/-- C2 (witness): the bound evaluated along a concrete one-step run. -/
theorem wheel_behaviour_bounded_witness :
    |wheel_behaviour 0 ProcessedFrame.default ProcessedFrame.default 0| ≤
      STEERING_STOP :=
  wheel_behaviour_bounded.2 [(ProcessedFrame.default, ProcessedFrame.default, 0)] _
    (by simp [runWheel])

/-! ## Claim C4 -/

/-- C4 (confirmed): a Gripped→Gripped step with both angles defined
returns `clamp(prev_wheel_angle + cyclic_signed_distance(cur_angle,
prev_angle), -STEERING_STOP, STEERING_STOP)`; in particular a zero-delta
step (`cur_angle = prev_angle`) from any in-range wheel angle leaves the
wheel angle unchanged, regardless of the elapsed time. -/
theorem wheel_behaviour_gripped_step (w : ℝ) (cur prev : ProcessedFrame)
    (dt a pa : ℝ) (hc : cur.analog_angle = some a) (hp : prev.analog_angle = some pa)
    (hps : prev.inner.state = State.Gripped) (hcs : cur.inner.state = State.Gripped) :
    wheel_behaviour w cur prev dt =
      clamp (w + cyclic_signed_distance a pa) (-STEERING_STOP) STEERING_STOP ∧
    (a = pa → |w| ≤ STEERING_STOP → wheel_behaviour w cur prev dt = w) := by
  have heq := wheel_behaviour_gripped_eq w cur prev dt a pa hc hp hps hcs
  constructor
  · rw [heq, add_comm]
  · intro hapa hw
    obtain ⟨h1, h2⟩ := abs_le.mp hw
    rw [heq, hapa, csd_self, zero_add]
    exact clamp_eq_self h1 h2

/-- C4 (witness): a concrete zero-delta Gripped→Gripped step keeps the
wheel angle, with a nonzero elapsed time. -/
theorem wheel_behaviour_gripped_step_witness :
    wheel_behaviour 1 ⟨⟨32767, 0, State.Gripped⟩, some 0, 1⟩
      ⟨⟨32767, 0, State.Gripped⟩, some 0, 1⟩ 5 = 1 :=
  (wheel_behaviour_gripped_step 1 ⟨⟨32767, 0, State.Gripped⟩, some 0, 1⟩
      ⟨⟨32767, 0, State.Gripped⟩, some 0, 1⟩ 5 0 0 rfl rfl rfl rfl).2 rfl
    (by rw [abs_one, STEERING_STOP, TAU]; nlinarith [Real.pi_gt_three])

/-! ## Claim C5 -/

/-- C5 (confirmed): any step that is not Gripped→Gripped (including an
undefined current angle) returns the time-proportional easing
`lerp(prev_wheel_angle, 0, clamp(elapsed * TAU/4, 0, 0.2))` clamped to
the stops; the result keeps the sign of the previous wheel angle (or is
zero), never exceeds it in absolute value, and the per-step blend factor
is capped at `0.2`. -/
theorem wheel_behaviour_easing_step (w : ℝ) (cur prev : ProcessedFrame) (dt : ℝ)
    (_hdt : 0 ≤ dt)
    (h : cur.analog_angle = none ∨
      ¬(prev.inner.state = State.Gripped ∧ cur.inner.state = State.Gripped)) :
    wheel_behaviour w cur prev dt =
      clamp (lerp w 0 (clamp ((TAU / 4) * dt) 0 0.2)) (-STEERING_STOP) STEERING_STOP ∧
    (0 ≤ w → 0 ≤ wheel_behaviour w cur prev dt ∧ wheel_behaviour w cur prev dt ≤ w) ∧
    (w ≤ 0 → w ≤ wheel_behaviour w cur prev dt ∧ wheel_behaviour w cur prev dt ≤ 0) ∧
    |wheel_behaviour w cur prev dt| ≤ |w| ∧
    clamp ((TAU / 4) * dt) 0 0.2 ≤ 0.2 := by
  have heq := wheel_behaviour_easing_eq w cur prev dt h
  obtain ⟨ht0, ht2⟩ := @clamp_mem ((TAU / 4) * dt) 0 0.2 (by norm_num)
  have hlerp : lerp w 0 (clamp ((TAU / 4) * dt) 0 0.2) =
      (1 - clamp ((TAU / 4) * dt) 0 0.2) * w := lerp_to_zero ht0 (by linarith)
  obtain ⟨e1, e2, e3⟩ := @ease_shrink w (clamp ((TAU / 4) * dt) 0 0.2) STEERING_STOP
    ht0 (by linarith) STEERING_STOP_pos
  rw [heq, hlerp]
  exact ⟨rfl, e1, e2, e3, ht2⟩

/-- C5 (witness): a concrete easing step — undefined current angle,
previous wheel angle `1`, zero elapsed time. -/
theorem wheel_behaviour_easing_step_witness :
    wheel_behaviour 1 ProcessedFrame.default ProcessedFrame.default 0 =
      clamp (lerp 1 0 (clamp ((TAU / 4) * 0) 0 0.2)) (-STEERING_STOP) STEERING_STOP ∧
    ((0 : ℝ) ≤ 1 → 0 ≤ wheel_behaviour 1 ProcessedFrame.default ProcessedFrame.default 0 ∧
      wheel_behaviour 1 ProcessedFrame.default ProcessedFrame.default 0 ≤ 1) ∧
    ((1 : ℝ) ≤ 0 → 1 ≤ wheel_behaviour 1 ProcessedFrame.default ProcessedFrame.default 0 ∧
      wheel_behaviour 1 ProcessedFrame.default ProcessedFrame.default 0 ≤ 0) ∧
    |wheel_behaviour 1 ProcessedFrame.default ProcessedFrame.default 0| ≤ |(1 : ℝ)| ∧
    clamp ((TAU / 4) * 0) 0 0.2 ≤ 0.2 :=
  wheel_behaviour_easing_step 1 ProcessedFrame.default ProcessedFrame.default 0
    le_rfl (Or.inl rfl)

/-! ## Claim C6 -/

/-- C6 (counterexample): the quantizer does not agree with the spec's
`midpoint + floor(...)` formula on the whole range: at
`wheel_angle = -STEERING_STOP/2` the scaled value is `-32767/2 = -16383.5`,
which the code truncates toward zero to `-16383` (output `16384`) while
the claimed floor gives `-16384` (output `16383`). -/
theorem quantize_wheel_angle_floor_counterexample :
    quantize_wheel_angle (-(STEERING_STOP / 2)) = 16384 ∧
    quantize_wheel_angle_spec (-(STEERING_STOP / 2)) = 16383 ∧
    quantize_wheel_angle (-(STEERING_STOP / 2)) ≠
      quantize_wheel_angle_spec (-(STEERING_STOP / 2)) := by
  have hS := STEERING_STOP_pos
  have harg : (HALF_U16 : ℝ) / STEERING_STOP * (-(STEERING_STOP / 2)) =
      -(32767 / 2) := by
    rw [HALF_U16_eq]
    push_cast
    field_simp
    ring
  have hceil : ⌈(-(32767 / 2) : ℝ)⌉ = -16383 := by
    rw [Int.ceil_eq_iff]
    constructor <;> norm_num
  have hfloor : ⌊(-(32767 / 2) : ℝ)⌋ = -16384 := by
    rw [Int.floor_eq_iff]
    constructor <;> norm_num
  have h1 : quantize_wheel_angle (-(STEERING_STOP / 2)) = 16384 := by
    rw [quantize_wheel_angle, harg, trunc, if_neg (by norm_num), hceil,
      i32_saturate_eq (by norm_num) (by norm_num), HALF_U16_eq]
    decide
  have h2 : quantize_wheel_angle_spec (-(STEERING_STOP / 2)) = 16383 := by
    rw [quantize_wheel_angle_spec, harg, hfloor, HALF_U16_eq]
    decide
  refine ⟨h1, h2, ?_⟩
  rw [h1, h2]
  decide

/-- C6 (amended): for every in-range wheel angle the quantizer computes
`midpoint + trunc(half_range / STEERING_STOP * wheel_angle)` — truncation
toward zero, not floor — with midpoint and half-range both
`HALF_U16 = ⌊65535/2⌋ = 32767` (the `i32` saturation of the float cast
never engages in range); in particular `quantize_wheel_angle 0` is
exactly the midpoint. -/
theorem quantize_wheel_angle_trunc :
    quantize_wheel_angle 0 = HALF_U16 ∧
    ∀ angle : ℝ, -STEERING_STOP ≤ angle → angle ≤ STEERING_STOP →
      quantize_wheel_angle angle =
        HALF_U16 + trunc ((HALF_U16 : ℝ) / STEERING_STOP * angle) := by
  have hS := STEERING_STOP_pos
  constructor
  · rw [quantize_wheel_angle, mul_zero, trunc, if_pos le_rfl, Int.floor_zero,
      i32_saturate_eq (by norm_num) (by norm_num), add_zero]
  · intro angle h1 h2
    have habs : |(HALF_U16 : ℝ) / STEERING_STOP * angle| ≤ ((32767 : ℤ) : ℝ) := by
      rw [HALF_U16_eq, abs_mul, abs_div]
      push_cast
      rw [show |(32767 : ℝ)| = 32767 by norm_num, abs_of_pos hS,
        div_mul_eq_mul_div, div_le_iff₀ hS]
      have habsangle : |angle| ≤ STEERING_STOP := abs_le.mpr ⟨h1, h2⟩
      nlinarith [abs_nonneg angle]
    obtain ⟨hlo, hhi⟩ := trunc_abs_le (by norm_num) habs
    rw [quantize_wheel_angle,
      i32_saturate_eq (by omega) (by omega)]

/-- C6 (witness): the amended formula at the center, giving the midpoint
exactly. -/
theorem quantize_wheel_angle_trunc_witness :
    quantize_wheel_angle 0 = HALF_U16 ∧
    quantize_wheel_angle 0 = HALF_U16 + trunc ((HALF_U16 : ℝ) / STEERING_STOP * 0) :=
  ⟨quantize_wheel_angle_trunc.1,
    quantize_wheel_angle_trunc.2 0 (by linarith [STEERING_STOP_pos])
      (le_of_lt STEERING_STOP_pos)⟩

/-! ## Claim C7 -/

/-- C7 (confirmed): the quantizer is monotone on the steering range:
`wheel_angle1 < wheel_angle2` implies
`quantize_wheel_angle wheel_angle1 ≤ quantize_wheel_angle wheel_angle2`. -/
theorem quantize_wheel_angle_monotone (w1 w2 : ℝ)
    (_ha : -STEERING_STOP ≤ w1) (_hb : w2 ≤ STEERING_STOP) (h : w1 < w2) :
    quantize_wheel_angle w1 ≤ quantize_wheel_angle w2 := by
  have hS := STEERING_STOP_pos
  have hcoef : (0 : ℝ) ≤ (HALF_U16 : ℝ) / STEERING_STOP := by
    rw [HALF_U16_eq]
    positivity
  have hmul : (HALF_U16 : ℝ) / STEERING_STOP * w1 ≤
      (HALF_U16 : ℝ) / STEERING_STOP * w2 :=
    mul_le_mul_of_nonneg_left (le_of_lt h) hcoef
  rw [quantize_wheel_angle, quantize_wheel_angle]
  exact add_le_add_left (i32_saturate_mono (trunc_mono hmul)) _

/-- C7 (witness): monotonicity applied at the concrete in-range pair
`(0, STEERING_STOP)`. -/
theorem quantize_wheel_angle_monotone_witness :
    quantize_wheel_angle 0 ≤ quantize_wheel_angle STEERING_STOP :=
  quantize_wheel_angle_monotone 0 STEERING_STOP
    (by linarith [STEERING_STOP_pos]) le_rfl STEERING_STOP_pos

/-! ## Claim C8 -/

/-- C8 (confirmed, on the pure model of the loop body): no input —
well-formed or not — makes the main loop exit; a read/decode failure
leaves the session state unchanged, prints a diagnostic, and discards a
256-byte garbage window (read error) or just drops the event (field
range error), after which the loop continues with the next record. -/
theorem main_loop_error_recovery :
    (∀ (st : Data) (el : ℝ) (inp : Except LoopError Event),
      ((mainLoopStep st el inp).2).exits = false) ∧
    (∀ (st : Data) (el : ℝ),
      mainLoopStep st el (Except.error LoopError.OtherErr) =
        (st, { exits := false, dropBytes := 256, errDiag := true })) ∧
    (∀ (st : Data) (el : ℝ) (e : RangeError),
      mainLoopStep st el (Except.error (LoopError.EventCreation e)) =
        (st, { exits := false, dropBytes := 0, errDiag := true })) := by
  refine ⟨?_, fun st el => rfl, fun st el e => rfl⟩
  intro st el inp
  rcases inp with e | ev
  · rcases e with e | _ <;> rfl
  · rcases ev with ⟨axis, value⟩ | kind | _
    · rcases axis with _ | _ | code <;> rfl
    · rcases kind <;> rfl
    · rfl

/-! ## Claim C9 -/

/-- C9 (counterexample): there is no transient `Sliding` behaviour.  On a
concrete step out of grip — previous frame `Gripped`, current magnitude
fallen to `0` — the wheel easing is time-proportional, not a fixed
one-shot blend: the same step gives `1` after `0` seconds but `0.8`
after `1` second. -/
theorem sliding_state_counterexample :
    wheel_behaviour 1 ⟨⟨0, 0, State.Freewheel⟩, some 0, 0⟩
        ⟨⟨32767, 0, State.Gripped⟩, some 0, 1⟩ 0 = 1 ∧
    wheel_behaviour 1 ⟨⟨0, 0, State.Freewheel⟩, some 0, 0⟩
        ⟨⟨32767, 0, State.Gripped⟩, some 0, 1⟩ 1 = 0.8 ∧
    (1 : ℝ) ≠ 0.8 := by
  have hπ3 := Real.pi_gt_three
  have hSbig : (1 : ℝ) ≤ STEERING_STOP := by
    rw [STEERING_STOP, TAU]
    nlinarith
  have hS := STEERING_STOP_pos
  have hno : ¬((⟨⟨32767, 0, State.Gripped⟩, some 0, 1⟩ : ProcessedFrame).inner.state =
        State.Gripped ∧
      (⟨⟨0, 0, State.Freewheel⟩, some 0, 0⟩ : ProcessedFrame).inner.state =
        State.Gripped) := by
    rintro ⟨-, h2⟩
    exact State.noConfusion h2
  refine ⟨?_, ?_, by norm_num⟩
  · rw [wheel_behaviour_easing_eq 1 _ _ 0 (Or.inr hno), mul_zero,
      clamp_eq_self le_rfl (by norm_num), lerp_to_zero le_rfl (by norm_num)]
    norm_num
    exact clamp_eq_self (by linarith) hSbig
  · have hTAU4 : (0.2 : ℝ) < TAU / 4 := by
      rw [TAU]
      nlinarith
    have hclamp : clamp (TAU / 4) 0 0.2 = 0.2 := by
      rw [clamp, if_neg (by linarith), if_pos hTAU4]
    rw [wheel_behaviour_easing_eq 1 _ _ 1 (Or.inr hno), mul_one, hclamp,
      lerp_to_zero (by norm_num) (by norm_num)]
    norm_num
    exact clamp_eq_self (by linarith) (by linarith)

/-- C9 (amended): the state machine has no `Sliding` state at all — every
`State` is `Freewheel` or `Gripped`, there is no `SLIDE_THRESHOLD`, and
(a fortiori) no previous frame ever carries a `Sliding` state.  A step
out of grip (previous `Gripped`, current `Freewheel`) uses the same
time-proportional easing as every other non-Gripped→Gripped step. -/
theorem no_sliding_state :
    (∀ s : State, s = State.Freewheel ∨ s = State.Gripped) ∧
    (∀ (w : ℝ) (cur prev : ProcessedFrame) (dt : ℝ),
      prev.inner.state = State.Gripped → cur.inner.state = State.Freewheel →
      wheel_behaviour w cur prev dt =
        clamp (lerp w 0 (clamp ((TAU / 4) * dt) 0 0.2))
          (-STEERING_STOP) STEERING_STOP) := by
  constructor
  · intro s
    cases s
    · exact Or.inl rfl
    · exact Or.inr rfl
  · intro w cur prev dt hps hcs
    apply wheel_behaviour_easing_eq
    right
    rintro ⟨-, h2⟩
    rw [hcs] at h2
    exact State.noConfusion h2

/-- C9 (witness): the amended easing equation at a concrete out-of-grip
step. -/
theorem no_sliding_state_witness :
    wheel_behaviour 1 ⟨⟨0, 0, State.Freewheel⟩, some 0, 0⟩
        ⟨⟨32767, 0, State.Gripped⟩, some 0, 1⟩ 2 =
      clamp (lerp 1 0 (clamp ((TAU / 4) * 2) 0 0.2))
        (-STEERING_STOP) STEERING_STOP :=
  no_sliding_state.2 1 ⟨⟨0, 0, State.Freewheel⟩, some 0, 0⟩
    ⟨⟨32767, 0, State.Gripped⟩, some 0, 1⟩ 2 rfl rfl

/-! ## Claim C10 -/

theorem atan2_zero_eq : atan2 0 0 = 0 := by
  rw [atan2, show (⟨(0 : ℝ), (0 : ℝ)⟩ : ℂ) = 0 from Complex.ext rfl rfl]
  exact Complex.arg_zero

/-- C10 (confirmed): `ProcessedFrame::from` always defines the angle:
`analog_angle = Some(atan2 y x)` for every frame, including the origin,
where the angle is `0`, the magnitude `0` and the classification
`Freewheel`; the frame `tick` hands to `wheel_behaviour` as the current
frame therefore always has a defined angle, so when the current angle is
defined the `unwrap_or_else(easing)` fallback is bypassed and the result
comes from the mapped branch; only the default previous frame carries an
undefined angle. -/
theorem analog_angle_always_defined :
    (∀ f : Frame, (ProcessedFrame.fromFrame f).analog_angle =
      some (atan2 (f.y : ℝ) (f.x : ℝ))) ∧
    (atan2 0 0 = 0 ∧
      Frame.analyze ⟨0, 0, State.Freewheel⟩ = (0, 0, State.Freewheel)) ∧
    (∀ (st : Data) (el : ℝ) (k : SynchronizeKind) (d : Data) (p : ProcessedFrame),
      tick st el k = (d, some p) → (p.analog_angle).isSome = true) ∧
    ProcessedFrame.default.analog_angle = none ∧
    (∀ (w : ℝ) (cur prev : ProcessedFrame) (dt a : ℝ), cur.analog_angle = some a →
      wheel_behaviour w cur prev dt =
        clamp
          (match prev.inner.state, cur.inner.state with
            | State.Gripped, State.Gripped =>
                (prev.analog_angle.elim 0 fun pa => cyclic_signed_distance a pa) + w
            | _, _ => lerp w 0 (clamp ((TAU / 4) * dt) 0 0.2))
          (-STEERING_STOP) STEERING_STOP) := by
  refine ⟨fun f => rfl, ⟨atan2_zero_eq, ?_⟩, ?_, rfl, ?_⟩
  · rw [Frame.analyze]
    simp only [Int.cast_zero, MAX_MAGNITUDE, GRIP_THRESHOLD]
    norm_num [atan2_zero_eq]
  · intro st el k d p htick
    by_cases hk : k = SynchronizeKind.Report
    · subst hk
      rw [tick, if_pos rfl] at htick
      have hp : some (ProcessedFrame.fromFrame st.cur) = some p :=
        congrArg Prod.snd htick
      obtain rfl : ProcessedFrame.fromFrame st.cur = p := Option.some.inj hp
      rfl
    · rw [tick, if_neg hk] at htick
      have hp : (none : Option ProcessedFrame) = some p := congrArg Prod.snd htick
      exact Option.noConfusion hp
  · intro w cur prev dt a hc
    simp only [wheel_behaviour, hc, Option.map_some', Option.getD_some]

/-- C10 (witness): the defined-angle guarantee at a concrete `tick` on a
Report event from the initial session state. -/
theorem analog_angle_always_defined_witness :
    ((ProcessedFrame.fromFrame Frame.default).analog_angle).isSome = true :=
  analog_angle_always_defined.2.2.1 ⟨ProcessedFrame.default, Frame.default, 0⟩ 0
    SynchronizeKind.Report _ _ rfl

end A2W
